import Mathlib

/-!
Verification of `lint_html.py`, a linter for PL HTML files.

The source reads a document file, parses it as XML with a library parser,
and checks one structural rule: the element `pl-multiple-choice` must be
the document root. A run lints a list of files and computes an exit code,
in one of two modes (strict, or test mode with an expected-failure set).

Shallow embedding choices:
- `XMLTree` models the element tree produced by the library parser
  (`xml.etree.ElementTree`): each node has a tag and an ordered list of
  children, which is all the linter inspects.
- The parser itself is library code, not part of this repository; a
  document's observable state is therefore modelled as `ReadOutcome`:
  either the file was read and parsing produced `Except.ok tree` or
  `Except.error msg` (a `ParseError` with message `msg`), or reading the
  file failed (`notFound` for `FileNotFoundError`, `readFail msg` for any
  other exception). Both `check_xml_syntax` and `check_custom_rules` open
  the same unchanged file, so they observe the same `ReadOutcome`.
- Error messages are modelled by the inductive `LintError`; `render` maps
  each constructor to the exact f-string the Python code appends, so
  constructors are in bijection with the spec's error kinds:
  `parseError` is the spec's SyntaxError, `fileNotFound` and `readFail`
  and `customFail` are ReadError variants, and `structuralPlacement` is
  the StructuralPlacementError.
-/

/-- An XML element tree: a tag and an ordered list of children
(the only parts of `xml.etree.ElementTree.Element` the linter reads). -/
inductive XMLTree where
  | node (tag : String) (children : List XMLTree)

/-- The tag of an element. -/
def XMLTree.tag : XMLTree → String
  | .node t _ => t

/-- The ordered children of an element. -/
def XMLTree.children : XMLTree → List XMLTree
  | .node _ c => c

/-- The observable state of one document file: reading succeeded and the
content parsed (or failed to parse), or reading itself raised. -/
inductive ReadOutcome where
  | ok (parsed : Except String XMLTree)
  | notFound
  | readFail (msg : String)

/-- `true` exactly when reading the document's content raises an exception
(so both checks hit their outer `except` clauses). -/
def ReadOutcome.isReadFailure : ReadOutcome → Bool
  | .ok _ => false
  | .notFound => true
  | .readFail _ => true

/-- The error records the linter can append, one constructor per distinct
f-string in the source. -/
inductive LintError where
  | parseError (msg : String)
  | fileNotFound (path : String)
  | readFail (msg : String)
  | structuralPlacement
  | customFail (msg : String)
  deriving DecidableEq

/-- The exact message string the Python code appends for each error. -/
def LintError.render : LintError → String
  | .parseError m => "XML syntax error: " ++ m
  | .fileNotFound p => "File not found: " ++ p
  | .readFail m => "Error reading file: " ++ m
  | .structuralPlacement =>
      "<pl-multiple-choice> element must not be nested inside other elements. It must be the root element of the document."
  | .customFail m => "Error checking custom rules: " ++ m

/-- `check_xml_syntax` from the source: report a parse failure (or a read
failure); an empty list means the file parsed. -/
def check_xml_syntax (file_path : String) (doc : ReadOutcome) : List LintError :=
  match doc with
  | .ok (Except.ok _) => []
  | .ok (Except.error e) => [LintError.parseError e]
  | .notFound => [LintError.fileNotFound file_path]
  | .readFail e => [LintError.readFail e]

mutual

/-- The nested helper `check_pl_multiple_choice_nesting` from the source:
emit one error when this element is `pl-multiple-choice` and not the root,
then recurse over the children (which are never the root). -/
def check_pl_multiple_choice_nesting : XMLTree → Bool → List LintError
  | XMLTree.node tag children, is_root =>
    (if tag == "pl-multiple-choice" && !is_root then [LintError.structuralPlacement] else [])
      ++ checkChildren children

/-- The `for child in element` loop body: errors of the children in order,
each checked with `is_root = False`. -/
def checkChildren : List XMLTree → List LintError
  | [] => []
  | c :: cs => check_pl_multiple_choice_nesting c false ++ checkChildren cs

end

/-- `check_custom_rules` from the source: on a parse failure return no
errors (the syntax error is reported by `check_xml_syntax`); on success run
the structural rule from the root; on a read failure report it. -/
def check_custom_rules (file_path : String) (doc : ReadOutcome) : List LintError :=
  match doc with
  | .ok (Except.ok tree) => check_pl_multiple_choice_nesting tree true
  | .ok (Except.error _) => []
  | .notFound => [LintError.fileNotFound file_path]
  | .readFail e => [LintError.customFail e]

/-- `lint_file` from the source: the syntax-check errors followed by the
custom-rule errors (extending by an empty list is the identity, so the two
`if` guards in the source change nothing). -/
def lint_file (file_path : String) (doc : ReadOutcome) : List LintError :=
  check_xml_syntax file_path doc ++ check_custom_rules file_path doc

mutual

/-- Preorder (document-order) listing of all nodes of a tree. -/
def allNodes : XMLTree → List XMLTree
  | XMLTree.node tag children => XMLTree.node tag children :: allNodesList children

/-- Preorder listing of all nodes of a forest. -/
def allNodesList : List XMLTree → List XMLTree
  | [] => []
  | c :: cs => allNodes c ++ allNodesList cs

end

/-- All nodes of the tree except its root, in document order. -/
def nonRootNodes (t : XMLTree) : List XMLTree :=
  allNodesList t.children

/-- Does a node carry the reserved tag? -/
def isReserved (nd : XMLTree) : Bool :=
  nd.tag == "pl-multiple-choice"

/-!
The run level (`main` from the source). A run's input is the ordered list
of discovered files, each a path paired with its `ReadOutcome`, plus the
mode flag (`TEST_MODE`) and the expected-failure set (`EXPECTED_FAILURES`,
modelled as the list of parsed identifiers; only membership is used). The
source keys the `results` dict by `os.path.basename(file_path)`; the dict
is modelled as an ordered association list with Python dict update
semantics (assigning to a present key keeps its position, otherwise the
pair is appended).
-/

/-- `os.path.basename` on POSIX paths: the suffix after the last slash
(`p[p.rfind(chr(47))+1:]`), computed by a left fold that restarts at every
slash. -/
def basename (p : String) : String :=
  String.mk (p.data.foldl (fun acc c => if c = '/' then [] else acc ++ [c]) [])

/-- One entry of the `results` dict:
`{"has_errors": bool(errors), "errors": errors}`. -/
structure FileResult where
  has_errors : Bool
  errors : List LintError
  deriving DecidableEq

/-- The result recorded for one linted file. -/
def mkResult (f : String × ReadOutcome) : FileResult :=
  { has_errors := !(lint_file f.1 f.2).isEmpty, errors := lint_file f.1 f.2 }

/-- Python dict assignment `results[k] = v` on an ordered association
list: overwrite in place when the key is present, else append. -/
def updateResults (m : List (String × FileResult)) (k : String) (v : FileResult) :
    List (String × FileResult) :=
  if m.any (fun p => p.1 == k) then m.map (fun p => if p.1 == k then (k, v) else p)
  else m ++ [(k, v)]

/-- Overwriting the value stored at key `k` in place (the present-key
branch of `updateResults`), used to reason about overwrites. -/
def setValue (m : List (String × FileResult)) (k : String) (v : FileResult) :
    List (String × FileResult) :=
  m.map (fun p => if p.1 == k then (k, v) else p)

/-- One iteration of the linting loop of `main`: lint the file and record
its result under its basename. -/
def lintStep (m : List (String × FileResult)) (f : String × ReadOutcome) :
    List (String × FileResult) :=
  updateResults m (basename f.1) (mkResult f)

/-- The linting loop of `main`: lint each file in order and record its
result under its basename. -/
def runResults (files : List (String × ReadOutcome)) : List (String × FileResult) :=
  files.foldl lintStep []

/-- The test-mode verdict loop of `main`: `test_passed` stays true exactly
when, for every recorded file, membership in the expected-failure set
agrees with `has_errors`. (The source iterates `sorted(results.items())`;
the conjunction is order-independent.) -/
def test_mode_passed (expected : List String)
    (results : List (String × FileResult)) : Bool :=
  results.all (fun kr => expected.contains kr.1 == kr.2.has_errors)

/-- The exit code computed by `main`: 0 when no files are found; in test
mode 0 iff the verdict loop passes; in normal (strict) mode 1 iff some
recorded result has errors. -/
def main_exit (test_mode : Bool) (expected : List String)
    (files : List (String × ReadOutcome)) : Nat :=
  if files.isEmpty then 0
  else if test_mode then
    if test_mode_passed expected (runResults files) then 0 else 1
  else
    if (runResults files).any (fun kr => kr.2.has_errors) then 1 else 0

/-- A strict-mode run whose two documents collide on the basename
`x.html`: the earlier one is malformed, the later one is clean. -/
def collidingRun : List (String × ReadOutcome) :=
  [("a/x.html", ReadOutcome.ok (Except.error "mismatched tag")),
   ("b/x.html", ReadOutcome.ok (Except.ok (XMLTree.node "p" [])))]

/-- A run with one failing and one passing document, distinct basenames. -/
def goodBadRun : List (String × ReadOutcome) :=
  [("bad.html", ReadOutcome.ok (Except.error "mismatched tag")),
   ("good.html", ReadOutcome.ok (Except.ok (XMLTree.node "p" [])))]

/-- A run with a single clean document. -/
def singleGoodRun : List (String × ReadOutcome) :=
  [("good.html", ReadOutcome.ok (Except.ok (XMLTree.node "p" [])))]

example : lint_file "f.html" (ReadOutcome.ok (Except.error "mismatched tag")) =
    [LintError.parseError "mismatched tag"] := by decide

example : lint_file "f.html"
    (ReadOutcome.ok (Except.ok (XMLTree.node "pl-multiple-choice" []))) = [] := by decide

example : lint_file "f.html"
    (ReadOutcome.ok (Except.ok (XMLTree.node "div" [XMLTree.node "pl-multiple-choice" []]))) =
    [LintError.structuralPlacement] := by decide

example : main_exit true ["bad.html"]
    [("bad.html", ReadOutcome.ok (Except.ok (XMLTree.node "div" [XMLTree.node "pl-multiple-choice" []]))),
     ("good.html", ReadOutcome.ok (Except.ok (XMLTree.node "p" [])))] = 0 := by decide

example : main_exit false [] collidingRun = 0 := by decide

example : basename "a/b/x.html" = "x.html" := by decide

/-!
Helper lemmas about the structural rule.
-/

/-- The child loop emits exactly one `structuralPlacement` error per
reserved-tag node of the forest, in document order. -/
theorem checkChildren_eq (cs : List XMLTree) :
    checkChildren cs =
      ((allNodesList cs).filter isReserved).map (fun _ => LintError.structuralPlacement) := by
  match cs with
  | [] => simp [checkChildren, allNodesList]
  | XMLTree.node tag ccs :: cs2 =>
    have e1 := checkChildren_eq ccs
    have e2 := checkChildren_eq cs2
    by_cases h : tag = "pl-multiple-choice" <;>
      simp [checkChildren, check_pl_multiple_choice_nesting, allNodesList, allNodes,
        XMLTree.tag, isReserved, e1, e2, List.filter_append, List.filter_cons, h]
termination_by sizeOf cs

/-- On a successfully parsed tree, `lint_file` returns exactly one
`structuralPlacement` error per non-root reserved-tag node, in document
order. -/
theorem lint_file_parsed (file_path : String) (t : XMLTree) :
    lint_file file_path (ReadOutcome.ok (Except.ok t)) =
      ((nonRootNodes t).filter isReserved).map (fun _ => LintError.structuralPlacement) := by
  cases t with
  | node tag ccs =>
    simp [lint_file, check_xml_syntax, check_custom_rules,
      check_pl_multiple_choice_nesting, nonRootNodes, XMLTree.children,
      checkChildren_eq ccs]

/-!
Run-level helper lemmas.
-/

/-- `all` only looks at the predicate's values on members. -/
theorem list_all_congr {α : Type} (l : List α) (f g : α → Bool)
    (h : ∀ a ∈ l, f a = g a) : l.all f = l.all g := by
  induction l with
  | nil => rfl
  | cons a as ih =>
    simp only [List.all_cons]
    rw [h a (by simp), ih (fun b hb => h b (by simp [hb]))]

/-- `(if c then 0 else 1) = 0` exactly when the condition holds. -/
theorem if_zero_one_eq_zero (c : Bool) : ((if c = true then (0 : Nat) else 1) = 0 ↔ c = true) := by
  cases c <;> simp

/-- On booleans, `==` agrees with propositional biconditional. -/
theorem beq_bool_iff (a b : Bool) : ((a == b) = true ↔ (a = true ↔ b = true)) := by
  cases a <;> cases b <;> simp

/-- Assigning a fresh key appends the pair. -/
theorem updateResults_absent (m : List (String × FileResult)) (k : String) (v : FileResult)
    (h : m.any (fun p => p.1 == k) = false) :
    updateResults m k v = m ++ [(k, v)] := by
  simp [updateResults, h]

/-- When every file's basename is fresh for the accumulator and the
basenames are pairwise distinct, the loop just appends one entry per
file, in order. -/
theorem foldl_lintStep_fresh :
    ∀ (files : List (String × ReadOutcome)) (m : List (String × FileResult)),
      (∀ f ∈ files, m.any (fun p => p.1 == basename f.1) = false) →
      (files.map (fun f => basename f.1)).Nodup →
      List.foldl lintStep m files = m ++ files.map (fun f => (basename f.1, mkResult f))
  | [], m, _, _ => by simp
  | f :: fs, m, hdisj, hnodup => by
    rw [List.map_cons, List.nodup_cons] at hnodup
    have hpair := hnodup
    have hstep : lintStep m f = m ++ [(basename f.1, mkResult f)] :=
      updateResults_absent _ _ _ (hdisj f (by simp))
    have hdisj2 : ∀ g ∈ fs,
        (m ++ [(basename f.1, mkResult f)]).any (fun p => p.1 == basename g.1) = false := by
      intro g hg
      rw [List.any_append]
      have h1 : m.any (fun p => p.1 == basename g.1) = false := hdisj g (by simp [hg])
      have h2 : basename f.1 ≠ basename g.1 := by
        intro he
        exact hpair.1 (he ▸ List.mem_map.mpr ⟨g, hg, rfl⟩)
      simp [h1, h2]
    have ih := foldl_lintStep_fresh fs (m ++ [(basename f.1, mkResult f)]) hdisj2 hpair.2
    calc List.foldl lintStep m (f :: fs)
        = List.foldl lintStep (lintStep m f) fs := rfl
      _ = List.foldl lintStep (m ++ [(basename f.1, mkResult f)]) fs := by rw [hstep]
      _ = m ++ (f :: fs).map (fun g => (basename g.1, mkResult g)) := by
          rw [ih]; simp

/-- With pairwise-distinct basenames, the results dict lists exactly one
entry per file, in input order. -/
theorem runResults_nodup (files : List (String × ReadOutcome))
    (h : (files.map (fun f => basename f.1)).Nodup) :
    runResults files = files.map (fun f => (basename f.1, mkResult f)) := by
  unfold runResults
  rw [foldl_lintStep_fresh files [] (fun f _ => rfl) h]
  simp

/-- Every key of the updated dict is an old key or the assigned key. -/
theorem keys_updateResults (m : List (String × FileResult)) (key : String) (v : FileResult)
    (k : String) (hk : k ∈ (updateResults m key v).map Prod.fst) :
    k ∈ m.map Prod.fst ∨ k = key := by
  unfold updateResults at hk
  by_cases h : m.any (fun p => p.1 == key) = true
  · rw [if_pos h] at hk
    simp only [List.map_map, List.mem_map, Function.comp] at hk
    obtain ⟨p, hp, hpe⟩ := hk
    by_cases hb : (p.1 == key) = true
    · right
      rw [if_pos hb] at hpe
      exact hpe.symm
    · left
      rw [if_neg (by simp [hb])] at hpe
      exact List.mem_map.mpr ⟨p, hp, hpe⟩
  · rw [if_neg h] at hk
    rw [List.map_append, List.mem_append] at hk
    rcases hk with h1 | h2
    · exact Or.inl h1
    · right; simpa using h2

/-- Every key of the results dict is the basename of some linted file. -/
theorem keys_foldl_lintStep :
    ∀ (files : List (String × ReadOutcome)) (m : List (String × FileResult)) (k : String),
      k ∈ (List.foldl lintStep m files).map Prod.fst →
      k ∈ m.map Prod.fst ∨ ∃ f ∈ files, basename f.1 = k
  | [], m, k, hk => Or.inl hk
  | f :: fs, m, k, hk => by
    rcases keys_foldl_lintStep fs (lintStep m f) k hk with h1 | ⟨g, hg1, hg2⟩
    · rcases keys_updateResults m (basename f.1) (mkResult f) k h1 with h3 | h4
      · exact Or.inl h3
      · exact Or.inr ⟨f, by simp, h4.symm⟩
    · exact Or.inr ⟨g, by simp [hg1], hg2⟩

/-- Assigning a present key overwrites its value in place. -/
theorem updateResults_present (m : List (String × FileResult)) (k : String) (v : FileResult)
    (h : m.any (fun p => p.1 == k) = true) :
    updateResults m k v = setValue m k v := by
  simp [updateResults, setValue, h]

/-- Overwriting a key that is not present changes nothing. -/
theorem setValue_absent (m : List (String × FileResult)) (k : String) (v : FileResult)
    (h : m.any (fun p => p.1 == k) = false) :
    setValue m k v = m := by
  induction m with
  | nil => rfl
  | cons p ps ih =>
    rw [List.any_cons, Bool.or_eq_false_iff] at h
    simp only [setValue, List.map_cons] at *
    rw [if_neg (by simp [h.1]), ih h.2]

/-- `setValue` distributes over append. -/
theorem setValue_append (l1 l2 : List (String × FileResult)) (k : String) (v : FileResult) :
    setValue (l1 ++ l2) k v = setValue l1 k v ++ setValue l2 k v := by
  simp [setValue]

/-- Overwriting the same key twice keeps only the second value. -/
theorem setValue_setValue (m : List (String × FileResult)) (b : String) (w v : FileResult) :
    setValue (setValue m b w) b v = setValue m b v := by
  induction m with
  | nil => rfl
  | cons p ps ih =>
    simp only [setValue, List.map_cons] at *
    by_cases hb : (p.1 == b) = true
    · rw [if_pos hb, if_pos (by simp), if_pos hb, ih]
    · rw [if_neg (by simp [hb]), if_neg (by simp [hb]), if_neg (by simp [hb]), ih]

/-- Overwriting a value does not change which keys are present. -/
theorem any_setValue (m : List (String × FileResult)) (b : String) (w : FileResult)
    (k : String) :
    (setValue m b w).any (fun p => p.1 == k) = m.any (fun p => p.1 == k) := by
  induction m with
  | nil => rfl
  | cons p ps ih =>
    simp only [setValue, List.map_cons, List.any_cons] at *
    by_cases hb : (p.1 == b) = true
    · have hpb : p.1 = b := by simpa using hb
      rw [if_pos hb, ih, hpb]
    · rw [if_neg (by simp [hb]), ih]

/-- Overwrites at distinct keys commute. -/
theorem setValue_comm (m : List (String × FileResult)) (b k : String)
    (w v : FileResult) (hkb : k ≠ b) :
    setValue (setValue m b w) k v = setValue (setValue m k v) b w := by
  simp only [setValue, List.map_map]
  refine List.map_eq_map_iff.mpr ?_
  intro p _
  simp only [Function.comp]
  by_cases hb : p.1 = b
  · simp [hb, hkb, Ne.symm hkb]
  · by_cases hk : p.1 = k
    · simp [hb, hk, hkb, Ne.symm hkb]
    · simp [hb, hk]

/-- Assigning any key preserves the presence of a key. -/
theorem any_updateResults_mono (m : List (String × FileResult)) (k : String)
    (v : FileResult) (b : String) (h : m.any (fun p => p.1 == b) = true) :
    (updateResults m k v).any (fun p => p.1 == b) = true := by
  by_cases hk : m.any (fun p => p.1 == k) = true
  · rw [updateResults_present _ _ _ hk, any_setValue]
    exact h
  · rw [updateResults_absent _ _ _ (eq_false_of_ne_true hk), List.any_append, h]
    rfl

/-- Assigning a key behind distinct-keyed overwrites commutes with them. -/
theorem updateResults_setValue_comm (m : List (String × FileResult)) (b k : String)
    (w v : FileResult) (hkb : k ≠ b) :
    updateResults (setValue m b w) k v = setValue (updateResults m k v) b w := by
  by_cases h : m.any (fun p => p.1 == k) = true
  · rw [updateResults_present _ _ _ (by rw [any_setValue]; exact h),
      updateResults_present _ _ _ h]
    exact setValue_comm m b k w v hkb
  · rw [updateResults_absent _ _ _ (by rw [any_setValue]; exact eq_false_of_ne_true h),
      updateResults_absent _ _ _ (eq_false_of_ne_true h), setValue_append]
    have : setValue [(k, v)] b w = [(k, v)] := by
      simp [setValue, hkb]
    rw [this]

/-- Both assignments of the same key factor through one dict that already
holds the key, so a later assignment erases the difference. -/
theorem updateResults_as_setValue (m : List (String × FileResult)) (b : String)
    (r r2 : FileResult) :
    ∃ m0, m0.any (fun p => p.1 == b) = true ∧
      updateResults m b r = setValue m0 b r ∧
      updateResults m b r2 = setValue m0 b r2 := by
  by_cases h : m.any (fun p => p.1 == b) = true
  · exact ⟨m, h, updateResults_present _ _ _ h, updateResults_present _ _ _ h⟩
  · have hb : m.any (fun p => p.1 == b) = false := eq_false_of_ne_true h
    refine ⟨m ++ [(b, r)], ?_, ?_, ?_⟩
    · rw [List.any_append]
      simp
    · rw [updateResults_absent _ _ _ hb, setValue_append, setValue_absent _ _ _ hb]
      simp [setValue]
    · rw [updateResults_absent _ _ _ hb, setValue_append, setValue_absent _ _ _ hb]
      simp [setValue]

/-- When some later file will assign the key `b` again, the value
currently stored at `b` has no influence on the rest of the loop. -/
theorem foldl_lintStep_overwritten :
    ∀ (rest : List (String × ReadOutcome)) (m : List (String × FileResult)) (b : String)
      (w w2 : FileResult),
      m.any (fun p => p.1 == b) = true →
      (∃ f ∈ rest, basename f.1 = b) →
      List.foldl lintStep (setValue m b w) rest = List.foldl lintStep (setValue m b w2) rest
  | [], _, _, _, _, _, hex => absurd hex (by simp)
  | f :: fs, m, b, w, w2, hb, hex => by
    by_cases hk : basename f.1 = b
    · have h1 : lintStep (setValue m b w) f = setValue m b (mkResult f) := by
        show updateResults (setValue m b w) (basename f.1) (mkResult f) = _
        rw [hk, updateResults_present _ _ _ (by rw [any_setValue]; exact hb),
          setValue_setValue]
      have h2 : lintStep (setValue m b w2) f = setValue m b (mkResult f) := by
        show updateResults (setValue m b w2) (basename f.1) (mkResult f) = _
        rw [hk, updateResults_present _ _ _ (by rw [any_setValue]; exact hb),
          setValue_setValue]
      show List.foldl lintStep (lintStep (setValue m b w) f) fs =
        List.foldl lintStep (lintStep (setValue m b w2) f) fs
      rw [h1, h2]
    · have h1 : lintStep (setValue m b w) f = setValue (lintStep m f) b w :=
        updateResults_setValue_comm m b (basename f.1) w (mkResult f) hk
      have h2 : lintStep (setValue m b w2) f = setValue (lintStep m f) b w2 :=
        updateResults_setValue_comm m b (basename f.1) w2 (mkResult f) hk
      have hb2 : (lintStep m f).any (fun p => p.1 == b) = true :=
        any_updateResults_mono m (basename f.1) (mkResult f) b hb
      have hex2 : ∃ g ∈ fs, basename g.1 = b := by
        rcases hex with ⟨g, hg, hgb⟩
        rcases List.mem_cons.mp hg with hgf | hgfs
        · exact absurd (hgf ▸ hgb) hk
        · exact ⟨g, hgfs, hgb⟩
      show List.foldl lintStep (lintStep (setValue m b w) f) fs =
        List.foldl lintStep (lintStep (setValue m b w2) f) fs
      rw [h1, h2]
      exact foldl_lintStep_overwritten fs (lintStep m f) b w w2 hb2 hex2

/-!
The claims.
-/

/-- Claim C1: on any text that fails to parse as XML, `lint_file` returns
exactly one error, the SyntaxError kind carrying the parser's message, and
no StructuralPlacementError: the structural check is skipped. -/
theorem c1_parse_failure_yields_single_syntax_error (file_path msg : String) :
    lint_file file_path (ReadOutcome.ok (Except.error msg)) = [LintError.parseError msg] ∧
    LintError.structuralPlacement ∉ lint_file file_path (ReadOutcome.ok (Except.error msg)) := by
  refine ⟨rfl, ?_⟩
  simp [lint_file, check_xml_syntax, check_custom_rules]

/-- Claim C2: on any well-formed text in which no element except possibly
the root carries the tag pl-multiple-choice, `lint_file` returns no
errors. -/
theorem c2_reserved_only_at_root_passes (file_path : String) (t : XMLTree)
    (h : ∀ nd ∈ nonRootNodes t, nd.tag ≠ "pl-multiple-choice") :
    lint_file file_path (ReadOutcome.ok (Except.ok t)) = [] := by
  rw [lint_file_parsed]
  have hf : (nonRootNodes t).filter isReserved = [] := by
    rw [List.filter_eq_nil_iff]
    intro nd hnd
    simp only [isReserved, Bool.not_eq_true, beq_eq_false_iff_ne, ne_eq]
    exact h nd hnd
  rw [hf]
  rfl

/-- Witness for C2: the spec scenario, the reserved element alone at the
root. -/
theorem c2_reserved_only_at_root_passes_witness :
    (∀ nd ∈ nonRootNodes (XMLTree.node "pl-multiple-choice" []),
        nd.tag ≠ "pl-multiple-choice") ∧
    lint_file "q.html"
      (ReadOutcome.ok (Except.ok (XMLTree.node "pl-multiple-choice" []))) = [] :=
  ⟨by decide,
   c2_reserved_only_at_root_passes "q.html" (XMLTree.node "pl-multiple-choice" []) (by decide)⟩

/-- Claim C3: on any well-formed text containing a non-root element with
tag pl-multiple-choice, `lint_file` returns at least one
StructuralPlacementError. -/
theorem c3_nested_reserved_flagged (file_path : String) (t : XMLTree)
    (h : ∃ nd ∈ nonRootNodes t, nd.tag = "pl-multiple-choice") :
    LintError.structuralPlacement ∈ lint_file file_path (ReadOutcome.ok (Except.ok t)) := by
  rw [lint_file_parsed]
  rcases h with ⟨nd, hmem, htag⟩
  simp only [List.mem_map, List.mem_filter]
  exact ⟨nd, ⟨hmem, by simp [isReserved, htag]⟩, trivial⟩

/-- Witness for C3: the spec scenario, the reserved element nested in a
div. -/
theorem c3_nested_reserved_flagged_witness :
    (∃ nd ∈ nonRootNodes (XMLTree.node "div" [XMLTree.node "pl-multiple-choice" []]),
        nd.tag = "pl-multiple-choice") ∧
    LintError.structuralPlacement ∈ lint_file "q.html"
      (ReadOutcome.ok (Except.ok (XMLTree.node "div" [XMLTree.node "pl-multiple-choice" []]))) :=
  ⟨by decide,
   c3_nested_reserved_flagged "q.html"
     (XMLTree.node "div" [XMLTree.node "pl-multiple-choice" []]) (by decide)⟩

/-- Claim C6: on any parsed tree, `lint_file` emits exactly one
StructuralPlacementError per non-root pl-multiple-choice node, in document
order, so the error count equals the count of such nodes. -/
theorem c6_one_error_per_nonroot_reserved_node (file_path : String) (t : XMLTree) :
    lint_file file_path (ReadOutcome.ok (Except.ok t)) =
      ((nonRootNodes t).filter isReserved).map (fun _ => LintError.structuralPlacement) ∧
    (lint_file file_path (ReadOutcome.ok (Except.ok t))).length =
      ((nonRootNodes t).filter isReserved).length := by
  refine ⟨lint_file_parsed file_path t, ?_⟩
  rw [lint_file_parsed, List.length_map]

/-- Claim C7: `lint_file` is deterministic — equal inputs give equal error
sequences, so a second run on unchanged input reproduces the result. -/
theorem c7_lint_file_deterministic (file_path1 file_path2 : String)
    (d1 d2 : ReadOutcome) (hp : file_path1 = file_path2) (hd : d1 = d2) :
    lint_file file_path1 d1 = lint_file file_path2 d2 := by
  rw [hp, hd]

/-- Witness for C7: two identical calls on the malformed-tag scenario. -/
theorem c7_lint_file_deterministic_witness :
    lint_file "f.html" (ReadOutcome.ok (Except.error "mismatched tag")) =
      lint_file "f.html" (ReadOutcome.ok (Except.error "mismatched tag")) :=
  c7_lint_file_deterministic "f.html" "f.html"
    (ReadOutcome.ok (Except.error "mismatched tag"))
    (ReadOutcome.ok (Except.error "mismatched tag")) rfl rfl

/-- Claim C8: when reading the document raises, `lint_file` returns two
error messages, not one — each of the two checks opens the file and
appends its own read-failure error. -/
theorem c8_unreadable_file_two_errors (file_path : String) (d : ReadOutcome)
    (h : d.isReadFailure = true) :
    (lint_file file_path d).length = 2 ∧
    ( check_xml_syntax file_path d).length = 1 ∧
    ( check_custom_rules file_path d).length = 1 := by
  cases d with
  | ok p => simp [ReadOutcome.isReadFailure] at h
  | notFound => exact ⟨rfl, rfl, rfl⟩
  | readFail e => exact ⟨rfl, rfl, rfl⟩

/-- Witness for C8: a file whose open raises FileNotFoundError. -/
theorem c8_unreadable_file_two_errors_witness :
    ReadOutcome.notFound.isReadFailure = true ∧
    (lint_file "gone.html" ReadOutcome.notFound).length = 2 :=
  ⟨rfl, (c8_unreadable_file_two_errors "gone.html" ReadOutcome.notFound rfl).1⟩

/-- Claim C4: in expectation (test) mode the run exits 0 iff, over the
results mapping, membership in the expected-failure set coincides with
having errors; any mismatch gives exit code 1. -/
theorem c4_expectation_mode_verdict (expected : List String)
    (files : List (String × ReadOutcome)) :
    (main_exit true expected files = 0 ↔
      ∀ kr ∈ runResults files, (kr.1 ∈ expected ↔ kr.2.has_errors = true)) ∧
    (main_exit true expected files = 0 ∨ main_exit true expected files = 1) := by
  unfold main_exit
  by_cases hf : files.isEmpty = true
  · have hnil : files = [] := by simpa using hf
    subst hnil
    simp [runResults]
  · rw [if_neg (by simp [hf]), if_pos rfl]
    have tm : test_mode_passed expected (runResults files) = true ↔
        ∀ kr ∈ runResults files, (kr.1 ∈ expected ↔ kr.2.has_errors = true) := by
      unfold test_mode_passed
      rw [List.all_eq_true]
      constructor
      · intro H kr hkr
        have h1 := (beq_bool_iff _ _).mp (H kr hkr)
        rw [← List.elem_iff]
        exact h1
      · intro H kr hkr
        refine (beq_bool_iff _ _).mpr ?_
        rw [List.elem_iff]
        exact H kr hkr
    refine ⟨?_, ?_⟩
    · rw [if_zero_one_eq_zero]
      exact tm
    · by_cases hp : test_mode_passed expected (runResults files) = true <;> simp [hp]

/-- Counterexample to claim C5 as stated: a document of the run has a
nonempty error list, yet the strict-mode exit code is 0, because the later
document with the same basename overwrote its result. -/
theorem c5_strict_counterexample :
    (∃ f ∈ collidingRun, lint_file f.1 f.2 ≠ []) ∧
    main_exit false [] collidingRun = 0 := by
  refine ⟨⟨("a/x.html", ReadOutcome.ok (Except.error "mismatched tag")),
    by simp [collidingRun], by decide⟩, by decide⟩

/-- Claim C5 (amended): in strict mode, provided the documents'
basenames are pairwise distinct, the run exits 1 iff some document's
validation produced a nonempty error list, and exits 0 iff every
document's error list is empty. -/
theorem c5_strict_mode_verdict (expected : List String)
    (files : List (String × ReadOutcome))
    (h : (files.map (fun f => basename f.1)).Nodup) :
    (main_exit false expected files = 1 ↔ ∃ f ∈ files, lint_file f.1 f.2 ≠ []) ∧
    (main_exit false expected files = 0 ↔ ∀ f ∈ files, lint_file f.1 f.2 = []) := by
  unfold main_exit
  by_cases hf : files.isEmpty = true
  · have hnil : files = [] := by simpa using hf
    subst hnil
    simp
  · rw [if_neg (by simp [hf]), if_neg (by simp)]
    rw [runResults_nodup files h]
    have key : ((files.map (fun f => (basename f.1, mkResult f))).any
          fun kr => kr.2.has_errors) = true ↔
        ∃ f ∈ files, lint_file f.1 f.2 ≠ [] := by
      rw [List.any_eq_true]
      constructor
      · rintro ⟨kr, hkr, hkr2⟩
        obtain ⟨f, hf1, rfl⟩ := List.mem_map.mp hkr
        exact ⟨f, hf1, by simpa [mkResult, List.isEmpty_iff] using hkr2⟩
      · rintro ⟨f, hf1, hf2⟩
        exact ⟨(basename f.1, mkResult f), List.mem_map.mpr ⟨f, hf1, rfl⟩,
          by simpa [mkResult, List.isEmpty_iff] using hf2⟩
    by_cases ha : ((files.map (fun f => (basename f.1, mkResult f))).any
        fun kr => kr.2.has_errors) = true
    · rw [if_pos ha]
      have hex := key.mp ha
      obtain ⟨f, hf1, hf2⟩ := hex
      refine ⟨iff_of_true rfl ⟨f, hf1, hf2⟩, ?_⟩
      exact iff_of_false one_ne_zero (fun hall => hf2 (hall f hf1))
    · rw [if_neg ha]
      have hnex : ¬∃ f ∈ files, lint_file f.1 f.2 ≠ [] := fun hx => ha (key.mpr hx)
      push_neg at hnex
      refine ⟨?_, iff_of_true rfl hnex⟩
      refine iff_of_false zero_ne_one (fun hex2 => ?_)
      obtain ⟨f, hf1, hf2⟩ := hex2
      exact hf2 (hnex f hf1)

/-- Witness for the amended C5: a failing and a passing document with
distinct basenames give exit code 1. -/
theorem c5_strict_mode_verdict_witness :
    (goodBadRun.map (fun f => basename f.1)).Nodup ∧
    (main_exit false [] goodBadRun = 1 ↔ ∃ f ∈ goodBadRun, lint_file f.1 f.2 ≠ []) :=
  ⟨by decide, (c5_strict_mode_verdict [] goodBadRun (by decide)).1⟩

/-- Claim C9: an expected-failure identifier that is no linted document's
basename is silently ignored — the verdict is unchanged by adding it, so
a run can succeed although that identifier was never validated. -/
theorem c9_unmatched_expected_identifier_ignored (x : String) (expected : List String)
    (files : List (String × ReadOutcome)) (h : ∀ f ∈ files, basename f.1 ≠ x) :
    main_exit true (x :: expected) files = main_exit true expected files := by
  have hkeys : ∀ kr ∈ runResults files, kr.1 ≠ x := by
    intro kr hkr hx
    have hmem : kr.1 ∈ (runResults files).map Prod.fst := List.mem_map.mpr ⟨kr, hkr, rfl⟩
    rcases keys_foldl_lintStep files [] kr.1 hmem with h1 | ⟨f, hf1, hf2⟩
    · simp at h1
    · exact h f hf1 (by rw [hf2, hx])
  have hsame : test_mode_passed (x :: expected) (runResults files) =
      test_mode_passed expected (runResults files) := by
    unfold test_mode_passed
    apply list_all_congr
    intro kr hkr
    have hcon : (x :: expected).contains kr.1 = expected.contains kr.1 := by
      simp [List.contains_cons, hkeys kr hkr]
    rw [hcon]
  unfold main_exit
  rw [hsame]

/-- Witness for C9: expecting the absent `ghost.html` to fail changes
nothing, and the run still succeeds. -/
theorem c9_unmatched_expected_identifier_ignored_witness :
    (∀ f ∈ singleGoodRun, basename f.1 ≠ "ghost.html") ∧
    main_exit true ["ghost.html"] singleGoodRun = main_exit true [] singleGoodRun ∧
    main_exit true ["ghost.html"] singleGoodRun = 0 :=
  ⟨by decide,
   c9_unmatched_expected_identifier_ignored "ghost.html" [] singleGoodRun (by decide),
   by decide⟩

/-- Claim C10: results are keyed by basename, so when a later document of
the run shares the earlier one's basename, the later result overwrites the
earlier one and the earlier document's outcome has no effect on the
results mapping or on the verdict in either mode. -/
theorem c10_basename_collision_overwrites (pre rest : List (String × ReadOutcome))
    (p1 : String) (d d2 : ReadOutcome) (mode : Bool) (expected : List String)
    (hcol : ∃ f ∈ rest, basename f.1 = basename p1) :
    runResults (pre ++ (p1, d) :: rest) = runResults (pre ++ (p1, d2) :: rest) ∧
    main_exit mode expected (pre ++ (p1, d) :: rest) =
      main_exit mode expected (pre ++ (p1, d2) :: rest) := by
  have hrun : runResults (pre ++ (p1, d) :: rest) = runResults (pre ++ (p1, d2) :: rest) := by
    unfold runResults
    rw [List.foldl_append, List.foldl_append, List.foldl_cons, List.foldl_cons]
    obtain ⟨m0, hm0, he1, he2⟩ := updateResults_as_setValue
      (List.foldl lintStep [] pre) (basename p1) (mkResult (p1, d)) (mkResult (p1, d2))
    have e1 : lintStep (List.foldl lintStep [] pre) (p1, d) =
        setValue m0 (basename p1) (mkResult (p1, d)) := he1
    have e2 : lintStep (List.foldl lintStep [] pre) (p1, d2) =
        setValue m0 (basename p1) (mkResult (p1, d2)) := he2
    rw [e1, e2]
    exact foldl_lintStep_overwritten rest m0 (basename p1)
      (mkResult (p1, d)) (mkResult (p1, d2)) hm0 hcol
  have hne1 : (pre ++ (p1, d) :: rest).isEmpty = false := by simp
  have hne2 : (pre ++ (p1, d2) :: rest).isEmpty = false := by simp
  refine ⟨hrun, ?_⟩
  unfold main_exit
  rw [hne1, hne2, hrun]

/-- Witness for C10: in the colliding run, replacing the earlier
malformed document's content by a clean one changes neither the results
mapping nor the strict-mode exit code. -/
theorem c10_basename_collision_overwrites_witness :
    runResults collidingRun =
      runResults [("a/x.html", ReadOutcome.ok (Except.ok (XMLTree.node "q" []))),
        ("b/x.html", ReadOutcome.ok (Except.ok (XMLTree.node "p" [])))] ∧
    main_exit false [] collidingRun =
      main_exit false [] [("a/x.html", ReadOutcome.ok (Except.ok (XMLTree.node "q" []))),
        ("b/x.html", ReadOutcome.ok (Except.ok (XMLTree.node "p" [])))] :=
  c10_basename_collision_overwrites []
    [("b/x.html", ReadOutcome.ok (Except.ok (XMLTree.node "p" [])))]
    "a/x.html" (ReadOutcome.ok (Except.error "mismatched tag"))
    (ReadOutcome.ok (Except.ok (XMLTree.node "q" []))) false [] (by decide)
